import Mathlib

/-!
Verification development for the memora repository.

The development shallowly embeds the persistence layer
(src/services/dbService.ts), the AI provider dispatcher
(the AIService class and BaseAIProvider), and the relevant
application-state handlers of src/App.tsx and
src/views/DashboardView.tsx.

Modelling conventions:
- Firestore document ids are opaque strings allocated by addDoc; they are
  modelled as natural numbers, with a per-database counter nextId playing
  the role of the id allocator (addDoc hands out nextId and increments it).
- A partition (users/{userId}/... versus public/data/...) is modelled by a
  pair of lists inside the DB structure, for the single user the claims
  speak about.  deleteDoc removes every document with the given id from
  the list; getDocs with a where clause is List.filter; orderBy is
  List.insertionSort.
- JavaScript undefined versus absent field both collapse to Option.none,
  matching the removeUndefined helper of dbService.ts which normalizes
  them before every write.  Where the source distinguishes null from
  undefined (the AI-settings document) the stored document field is an
  Option whose none stands for null.
- Asynchronous store calls are sequenced exactly as the awaits of the
  source; operations that can partially fail are additionally given an
  explicit trace of primitive store operations so that any prefix of the
  trace is a possible partial execution.
-/

/-- JavaScript whitespace test used by String.prototype.trim, restricted to
the usual ASCII whitespace characters. -/
def jsWhitespace (c : Char) : Bool :=
  c = ' ' || c = '\t' || c = '\n' || c = '\r'

/-- Model of JavaScript String.prototype.trim. -/
def strTrim (s : String) : String :=
  (((s.data.dropWhile jsWhitespace).reverse.dropWhile jsWhitespace).reverse).asString

/-- Model of JavaScript String.prototype.toLowerCase (ASCII lowering). -/
def strLower (s : String) : String :=
  (s.data.map Char.toLower).asString

/-- True when the second list occurs at the start of the first list. -/
def charsBeginWith : List Char → List Char → Bool
  | _, [] => true
  | [], _ :: _ => false
  | a :: as, b :: bs => a = b && charsBeginWith as bs

/-- True when the pattern occurs somewhere inside the haystack. -/
def charsContain : List Char → List Char → Bool
  | [], pat => charsBeginWith [] pat
  | c :: t, pat => charsBeginWith (c :: t) pat || charsContain t pat

/-- Model of JavaScript hay.includes(needle). -/
def strIncludes (hay needle : String) : Bool :=
  charsContain hay.data needle.data

/-- Document id, an opaque Firestore identifier modelled as a natural. -/
abbrev DocId := Nat

/-- Category document as stored (src/types.ts plus the createdAt field that
addCategory, publishCategory and toggleCategoryPublish write and that the
orderBy("createdAt") queries read). -/
structure Category where
  id : DocId
  name : String
  color : String
  icon : String
  isPublic : Bool
  ownerId : Option String
  createdAt : Nat
  deriving DecidableEq, Repr

/-- Note document as stored (src/types.ts). -/
structure Note where
  id : DocId
  categoryId : DocId
  title : String
  content : String
  imageUrl : Option String
  images : Option (List String)
  tags : Option (List String)
  createdAt : Nat
  updatedAt : Nat
  isPublic : Bool
  ownerId : Option String
  deriving DecidableEq, Repr

/-- Backing document store for one user: the private partition
users/{userId}/{categories,notes}, the public partition
public/data/{categories,notes}, and the id allocator. -/
structure DB where
  privCats : List Category
  pubCats : List Category
  privNotes : List Note
  pubNotes : List Note
  nextId : Nat
  deriving DecidableEq, Repr

/-- Notes of a partition, selected by the partition marker
(true = public partition). -/
def DB.notesOf (db : DB) (pub : Bool) : List Note :=
  if pub then db.pubNotes else db.privNotes

/-- Categories of a partition, selected by the partition marker. -/
def DB.catsOf (db : DB) (pub : Bool) : List Category :=
  if pub then db.pubCats else db.privCats

/-- Well-formedness of the store: every allocated id is below the id
counter and ids are unique inside each collection, as Firestore
guarantees. -/
def DB.WF (db : DB) : Prop :=
  (∀ n ∈ db.privNotes, n.id < db.nextId) ∧
  (∀ n ∈ db.pubNotes, n.id < db.nextId) ∧
  (∀ c ∈ db.privCats, c.id < db.nextId) ∧
  (∀ c ∈ db.pubCats, c.id < db.nextId) ∧
  (db.privNotes.map Note.id).Nodup ∧
  (db.pubNotes.map Note.id).Nodup ∧
  (db.privCats.map Category.id).Nodup ∧
  (db.pubCats.map Category.id).Nodup

instance (db : DB) : Decidable db.WF := by
  unfold DB.WF; infer_instance

/-- Primitive store operations, recorded by the migration functions so
that the order of Firestore writes is observable; a partial (failed
midway) execution is any prefix of the recorded trace.  The Bool is the
partition marker of the touched collection, true = public. -/
inductive StoreOp where
  | createNote (pub : Bool) (id : DocId)
  | deleteNote (pub : Bool) (id : DocId)
  | createCat (pub : Bool) (id : DocId)
  | deleteCat (pub : Bool) (id : DocId)
  deriving DecidableEq, Repr

/-- First value bound to the key in an association list; models
Map.prototype.get for insertion-ordered maps with distinct keys. -/
def assocLookup (m : List (DocId × DocId)) (k : DocId) : Option DocId :=
  match m.find? (fun e => e.1 = k) with
  | some e => some e.2
  | none => none

-- ==================== toggleNotePublish (dbService.ts 317-358) ====================

/-- Sanitized copy built at the top of toggleNotePublish: the fields
categoryId, title, content, imageUrl, tags, createdAt are carried over,
updatedAt is stamped with the current time, ownerId with the calling user.
The images array is not among the copied fields, and the new document id
and partition flag are filled in by the caller. -/
def cleanNoteCopy (userId : String) (note : Note) (now : Nat)
    (newId : DocId) (pub : Bool) : Note :=
  { id := newId
    categoryId := note.categoryId
    title := note.title
    content := note.content
    imageUrl := note.imageUrl
    images := none
    tags := note.tags
    createdAt := note.createdAt
    updatedAt := now
    isPublic := pub
    ownerId := some userId }

/-- Outcome of toggleNotePublish: the updated store and the returned
record with newId and isPublic. -/
structure NoteToggleOutcome where
  db : DB
  newId : DocId
  isPublic : Bool
  deriving DecidableEq, Repr

/-- Model of toggleNotePublish (dbService.ts lines 317-358): create the
sanitized copy in the destination partition under a fresh id, then delete
the source document from the origin partition unless the note already
carried the destination partition flag; return the new id and flag. -/
def toggleNotePublish (db : DB) (userId : String) (note : Note)
    (makePublic : Bool) (now : Nat) : NoteToggleOutcome :=
  if makePublic then
    let newId := db.nextId
    let db1 := { db with
      pubNotes := db.pubNotes ++ [cleanNoteCopy userId note now newId true]
      nextId := db.nextId + 1 }
    let db2 :=
      if !note.isPublic then
        { db1 with privNotes := db1.privNotes.filter (fun m => m.id ≠ note.id) }
      else db1
    ⟨db2, newId, true⟩
  else
    let newId := db.nextId
    let db1 := { db with
      privNotes := db.privNotes ++ [cleanNoteCopy userId note now newId false]
      nextId := db.nextId + 1 }
    let db2 :=
      if note.isPublic then
        { db1 with pubNotes := db1.pubNotes.filter (fun m => m.id ≠ note.id) }
      else db1
    ⟨db2, newId, false⟩

-- ==================== toggleCategoryPublish (dbService.ts 362-461) ====================

/-- Sanitized note copy built inside the migration loop of
toggleCategoryPublish: the categoryId is replaced by the id of the freshly
created destination category, updatedAt is stamped with the current time,
and the images array is again not among the copied fields. -/
def migratedNoteCopy (userId : String) (note : Note) (now : Nat)
    (newCatId newId : DocId) (pub : Bool) : Note :=
  { id := newId
    categoryId := newCatId
    title := note.title
    content := note.content
    imageUrl := note.imageUrl
    images := none
    tags := note.tags
    createdAt := note.createdAt
    updatedAt := now
    isPublic := pub
    ownerId := some userId }

/-- Outcome of the migration loop: the updated store, the recorded id map
in iteration order, and the trace of primitive store operations. -/
structure MigrateOutcome where
  db : DB
  idMap : List (DocId × DocId)
  trace : List StoreOp
  deriving DecidableEq, Repr

/-- Migration loop of toggleCategoryPublish, moving the listed notes into
the destination partition (dst, true = public): for each note, create the
sanitized copy under a fresh id in the destination, record the
old-to-new id pair, then delete the source document.  Returns the updated
store, the recorded id map in iteration order, and the trace of primitive
store operations in execution order. -/
def migrateCatNotes (userId : String) (newCatId : DocId) (now : Nat)
    (dst : Bool) : List Note → DB → MigrateOutcome
  | [], db => ⟨db, [], []⟩
  | n :: rest, db =>
    let newId := db.nextId
    let copied := migratedNoteCopy userId n now newCatId newId dst
    let db1 :=
      if dst then
        { db with pubNotes := db.pubNotes ++ [copied], nextId := db.nextId + 1 }
      else
        { db with privNotes := db.privNotes ++ [copied], nextId := db.nextId + 1 }
    let db2 :=
      if dst then
        { db1 with privNotes := db1.privNotes.filter (fun m => m.id ≠ n.id) }
      else
        { db1 with pubNotes := db1.pubNotes.filter (fun m => m.id ≠ n.id) }
    let res := migrateCatNotes userId newCatId now dst rest db2
    ⟨res.db, (n.id, newId) :: res.idMap,
      StoreOp.createNote dst newId :: StoreOp.deleteNote (!dst) n.id :: res.trace⟩

/-- Category copy built at the top of toggleCategoryPublish (name, color,
icon, ownerId, and a fresh createdAt stamp). -/
def cleanCategoryCopy (userId : String) (cat : Category) (now : Nat)
    (newId : DocId) (pub : Bool) : Category :=
  { id := newId
    name := cat.name
    color := cat.color
    icon := cat.icon
    isPublic := pub
    ownerId := some userId
    createdAt := now }

/-- Outcome of toggleCategoryPublish: the updated store, the returned
record (newId, isPublic, migratedNoteIds in insertion order) and the
trace of primitive store operations in execution order. -/
structure CatToggleOutcome where
  db : DB
  newId : DocId
  isPublic : Bool
  migratedNoteIds : List (DocId × DocId)
  trace : List StoreOp
  deriving DecidableEq, Repr

/-- Model of toggleCategoryPublish (dbService.ts lines 362-461): create
the category copy in the destination partition under a fresh id; when the
category actually changes partition, query the source notes referencing
the old category id, migrate each of them (create copy, record the id
pair, delete source), and finally delete the source category document.
Returns the updated store, the result record (newId, isPublic,
migratedNoteIds) and the trace of primitive store operations. -/
def toggleCategoryPublish (db : DB) (userId : String) (cat : Category)
    (makePublic : Bool) (now : Nat) : CatToggleOutcome :=
  if makePublic then
    let newCatId := db.nextId
    let newCat := cleanCategoryCopy userId cat now newCatId true
    let db1 := { db with pubCats := db.pubCats ++ [newCat], nextId := db.nextId + 1 }
    if !cat.isPublic then
      let olds := db1.privNotes.filter (fun n => n.categoryId = cat.id)
      let res := migrateCatNotes userId newCatId now true olds db1
      let db2 := res.db
      let db3 := { db2 with privCats := db2.privCats.filter (fun c => c.id ≠ cat.id) }
      ⟨db3, newCatId, true, res.idMap,
        StoreOp.createCat true newCatId :: (res.trace ++ [StoreOp.deleteCat false cat.id])⟩
    else
      ⟨db1, newCatId, true, [], [StoreOp.createCat true newCatId]⟩
  else
    let newCatId := db.nextId
    let newCat := cleanCategoryCopy userId cat now newCatId false
    let db1 := { db with privCats := db.privCats ++ [newCat], nextId := db.nextId + 1 }
    if cat.isPublic then
      let olds := db1.pubNotes.filter (fun n => n.categoryId = cat.id)
      let res := migrateCatNotes userId newCatId now false olds db1
      let db2 := res.db
      let db3 := { db2 with pubCats := db2.pubCats.filter (fun c => c.id ≠ cat.id) }
      ⟨db3, newCatId, false, res.idMap,
        StoreOp.createCat false newCatId :: (res.trace ++ [StoreOp.deleteCat true cat.id])⟩
    else
      ⟨db1, newCatId, false, [], [StoreOp.createCat false newCatId]⟩

-- ==================== saveNote (dbService.ts 150-209) ====================

/-- Input payload of saveNote, mirroring Partial of Note with a mandatory
categoryId (the App always supplies title and content strings). -/
structure NoteInput where
  id : Option DocId
  categoryId : DocId
  title : String
  content : String
  imageUrl : Option String
  images : Option (List String)
  tags : Option (List String)
  isPublic : Option Bool
  deriving DecidableEq, Repr

/-- Field update applied by updateDoc on the existing note: present fields
overwrite, absent (undefined, removed by removeUndefined) fields keep the
stored value, and updatedAt is stamped with the current time. -/
def applyNotePatch (input : NoteInput) (now : Nat) (n : Note) : Note :=
  { n with
    categoryId := input.categoryId
    title := input.title
    content := input.content
    imageUrl := input.imageUrl.orElse (fun _ => n.imageUrl)
    images := input.images.orElse (fun _ => n.images)
    tags := input.tags.orElse (fun _ => n.tags)
    isPublic := (input.isPublic.map (fun b => b)).getD n.isPublic
    updatedAt := now }

/-- Model of saveNote (dbService.ts lines 150-209).  With an id present it
updates in place, routed by the partition flag carried in the payload
(public updates require admin); without an id it creates, deciding the
partition by shouldBePublic = isAdmin AND categoryIsPublic, where the two
optional flags follow JavaScript truthiness (absent = false). -/
def saveNote (db : DB) (userId : String) (note : NoteInput)
    (isAdmin categoryIsPublic : Option Bool) (now : Nat) :
    Except String (DB × DocId × Bool) :=
  match note.id with
  | some nid =>
    if note.isPublic.getD false then
      if !(isAdmin.getD false) then
        .error "Only admin can edit public notes"
      else
        .ok ({ db with
          pubNotes := db.pubNotes.map (fun n =>
            if n.id = nid then applyNotePatch note now n else n) }, nid, true)
    else
      .ok ({ db with
        privNotes := db.privNotes.map (fun n =>
          if n.id = nid then applyNotePatch note now n else n) }, nid, false)
  | none =>
    let shouldBePublic := isAdmin.getD false && categoryIsPublic.getD false
    let newId := db.nextId
    let created : Note :=
      { id := newId
        categoryId := note.categoryId
        title := note.title
        content := note.content
        imageUrl := note.imageUrl
        images := note.images
        tags := note.tags
        createdAt := now
        updatedAt := now
        isPublic := shouldBePublic
        ownerId := some userId }
    if shouldBePublic then
      .ok ({ db with pubNotes := db.pubNotes ++ [created], nextId := db.nextId + 1 },
        newId, true)
    else
      .ok ({ db with privNotes := db.privNotes ++ [created], nextId := db.nextId + 1 },
        newId, false)

-- ==================== category helpers (dbService.ts 105-110, 222-235) ====================

/-- Model of deleteCategory (dbService.ts lines 105-110): refuses public
categories, otherwise deletes from the private partition of the user. -/
def deleteCategory (db : DB) (categoryId : DocId) (isPublic : Option Bool) :
    Except String DB :=
  if isPublic.getD false then
    .error "Cannot delete public categories"
  else
    .ok { db with privCats := db.privCats.filter (fun c => c.id ≠ categoryId) }

/-- Model of migrateNotesToCategory (dbService.ts lines 222-235): every
private note whose categoryId equals fromCatId is updated to point at
toCatId; no other field changes. -/
def migrateNotesToCategory (db : DB) (fromCatId toCatId : DocId) : DB :=
  { db with privNotes := db.privNotes.map (fun n =>
      if n.categoryId = fromCatId then { n with categoryId := toCatId } else n) }

-- ==================== read paths (dbService.ts 55-81, 112-138, 283-312) ====================

/-- Ordering used by the orderBy("createdAt", "asc") category queries. -/
def catCreatedLe (a b : Category) : Prop := a.createdAt ≤ b.createdAt

instance : DecidableRel catCreatedLe := fun a b => Nat.decLe a.createdAt b.createdAt

instance : IsTotal Category catCreatedLe :=
  ⟨fun a b => Nat.le_total a.createdAt b.createdAt⟩

instance : IsTrans Category catCreatedLe :=
  ⟨fun _ _ _ h1 h2 => Nat.le_trans h1 h2⟩

/-- Ordering used by the orderBy("updatedAt", "desc") note queries. -/
def noteUpdatedGe (a b : Note) : Prop := b.updatedAt ≤ a.updatedAt

instance : DecidableRel noteUpdatedGe := fun a b => Nat.decLe b.updatedAt a.updatedAt

/-- Result of a getDocs call on an ordered query: the collection sorted by
the query ordering, or a thrown error when the underlying fetch fails
(the fail flag models any exception inside the try block). -/
def getDocsSorted {α : Type} (r : α → α → Prop) [DecidableRel r]
    (fail : Bool) (l : List α) : Except Unit (List α) :=
  if fail then .error () else .ok (l.insertionSort r)

/-- Tag applied by the fetch mappers, overriding the stored isPublic with
the partition of origin. -/
def tagCat (pub : Bool) (c : Category) : Category := { c with isPublic := pub }

/-- Tag applied by the note fetch mappers. -/
def tagNote (pub : Bool) (n : Note) : Note := { n with isPublic := pub }

/-- Model of fetchCategories (dbService.ts lines 55-81): fetch the private
and the public category collections ordered by creation time, tag each with
the partition of origin, return public first; any error inside the try
block yields the empty list. -/
def fetchCategories (db : DB) (fail : Bool) : List Category :=
  match (do
    let privDocs ← getDocsSorted catCreatedLe fail db.privCats
    let pubDocs ← getDocsSorted catCreatedLe fail db.pubCats
    pure ((pubDocs.map (tagCat true)) ++ (privDocs.map (tagCat false))) :
      Except Unit (List Category)) with
  | .ok r => r
  | .error _ => []

/-- Model of fetchNotes (dbService.ts lines 112-138): same shape over the
note collections, ordered by updatedAt descending. -/
def fetchNotes (db : DB) (fail : Bool) : List Note :=
  match (do
    let privDocs ← getDocsSorted noteUpdatedGe fail db.privNotes
    let pubDocs ← getDocsSorted noteUpdatedGe fail db.pubNotes
    pure ((pubDocs.map (tagNote true)) ++ (privDocs.map (tagNote false))) :
      Except Unit (List Note)) with
  | .ok r => r
  | .error _ => []

/-- Model of fetchPublicCategories (dbService.ts lines 283-296). -/
def fetchPublicCategories (db : DB) (fail : Bool) : List Category :=
  match (do
    let docs ← getDocsSorted catCreatedLe fail db.pubCats
    pure (docs.map (tagCat true)) : Except Unit (List Category)) with
  | .ok r => r
  | .error _ => []

/-- Model of fetchPublicNotes (dbService.ts lines 299-312). -/
def fetchPublicNotes (db : DB) (fail : Bool) : List Note :=
  match (do
    let docs ← getDocsSorted noteUpdatedGe fail db.pubNotes
    pure (docs.map (tagNote true)) : Except Unit (List Note)) with
  | .ok r => r
  | .error _ => []

-- ==================== AI settings persistence (dbService.ts 484-513) ====================

/-- Backend kinds of the AI provider registry (src/services/ai/types.ts). -/
inductive AIProviderType where
  | gemini
  | chatgpt
  deriving DecidableEq, Repr

/-- UserAISettings (src/services/ai/types.ts): every field optional. -/
structure UserAISettings where
  geminiApiKey : Option String
  chatgptApiKey : Option String
  preferredProvider : Option AIProviderType
  deriving DecidableEq, Repr

/-- Stored users/{userId}/private/aiSettings document; none stands for the
JavaScript null written by saveUserAISettings. -/
structure StoredAISettings where
  geminiApiKey : Option String
  chatgptApiKey : Option String
  preferredProvider : Option AIProviderType
  updatedAt : Nat
  deriving DecidableEq, Repr

/-- Model of the JavaScript expression (value || null) on an optional
string: a missing or empty (falsy) string becomes null, anything else is
kept. -/
def jsOrNull : Option String → Option String
  | some k => if k = "" then none else some k
  | none => none

/-- Model of saveUserAISettings (dbService.ts lines 484-494): each field is
normalized with (value || null), so nothing is undefined and removeUndefined
removes nothing; setDoc with merge overwrites all four stored fields, making
the previous document content irrelevant. -/
def saveUserAISettings (prev : Option StoredAISettings) (s : UserAISettings)
    (now : Nat) : StoredAISettings :=
  let _ := prev
  { geminiApiKey := jsOrNull s.geminiApiKey
    chatgptApiKey := jsOrNull s.chatgptApiKey
    preferredProvider := s.preferredProvider
    updatedAt := now }

/-- Model of fetchUserAISettings (dbService.ts lines 496-513): a missing
document yields null; otherwise each credential is read back with
(value || undefined), turning the stored null into an absent field. -/
def fetchUserAISettings (stored : Option StoredAISettings) : Option UserAISettings :=
  match stored with
  | some d =>
    some { geminiApiKey := jsOrNull d.geminiApiKey
           chatgptApiKey := jsOrNull d.chatgptApiKey
           preferredProvider := d.preferredProvider }
  | none => none

-- ==================== AI provider dispatcher (AIService, BaseAIProvider) ====================

/-- AIRequestContext (src/services/ai/types.ts). -/
structure AIRequestContext where
  title : Option String
  content : Option String
  imageBase64 : Option String
  customPrompt : Option String
  deriving DecidableEq, Repr

/-- AIResponse (src/services/ai/types.ts). -/
structure AIResponse where
  title : Option String
  content : String
  tags : Option (List String)
  deriving DecidableEq, Repr

/-- A constructed provider instance: its registry kind and the credential
passed to the BaseAIProvider constructor. -/
structure ProviderInstance where
  kind : AIProviderType
  apiKey : String
  deriving DecidableEq, Repr

/-- Model of BaseAIProvider.isConfigured: Boolean(apiKey and
apiKey.trim().length > 0). -/
def providerConfigured (apiKey : String) : Bool :=
  (apiKey != "") && !((strTrim apiKey).data.isEmpty)

/-- AIService state: the provider registry (an insertion-ordered map from
kind to instance) and the stored preference. -/
structure AIService where
  providers : List (AIProviderType × ProviderInstance)
  preferredProvider : Option AIProviderType
  deriving DecidableEq, Repr

/-- Truthiness of an optional string credential, as tested by the
JavaScript conditionals of AIService.configure. -/
def jsTruthyStr : Option String → Bool
  | some k => k != ""
  | none => false

/-- Map.prototype.get on the registry. -/
def registryGet (ps : List (AIProviderType × ProviderInstance))
    (t : AIProviderType) : Option ProviderInstance :=
  match ps.find? (fun p => p.1 = t) with
  | some p => some p.2
  | none => none

/-- Model of AIService.configure: clear the registry; register a Gemini
instance when the gemini credential is truthy and the instance reports
itself configured; likewise for ChatGPT; record the preference with
(value || null). -/
def AIService.configure (settings : UserAISettings) : AIService :=
  let ps0 : List (AIProviderType × ProviderInstance) := []
  let ps1 :=
    if jsTruthyStr settings.geminiApiKey then
      let k := settings.geminiApiKey.getD ""
      if providerConfigured k then
        ps0 ++ [(AIProviderType.gemini, ⟨AIProviderType.gemini, k⟩)]
      else ps0
    else ps0
  let ps2 :=
    if jsTruthyStr settings.chatgptApiKey then
      let k := settings.chatgptApiKey.getD ""
      if providerConfigured k then
        ps1 ++ [(AIProviderType.chatgpt, ⟨AIProviderType.chatgpt, k⟩)]
      else ps1
    else ps1
  { providers := ps2, preferredProvider := settings.preferredProvider }

/-- Model of AIService.getPreferredProvider: the registry entry matching
the stored preference when present, otherwise the first registered entry,
otherwise none. -/
def AIService.getPreferredProvider (svc : AIService) : Option ProviderInstance :=
  match svc.preferredProvider with
  | some t =>
    match registryGet svc.providers t with
    | some p => some p
    | none => (svc.providers.head?).map Prod.snd
  | none => (svc.providers.head?).map Prod.snd

/-- Model of AIService.enhance, parametric in the network: net stands for
the enhance call of the chosen provider (the only place a request leaves
the dispatcher).  An explicitly requested kind must be registered; otherwise
the preferred provider is used, and an empty registry is rejected before
net is ever consulted. -/
def AIService.enhanceWith (svc : AIService) (ctx : AIRequestContext)
    (providerType : Option AIProviderType)
    (net : ProviderInstance → AIRequestContext → Except String AIResponse) :
    Except String AIResponse :=
  match providerType with
  | some t =>
    match registryGet svc.providers t with
    | some p => net p ctx
    | none => .error "Provider is not configured"
  | none =>
    match svc.getPreferredProvider with
    | some p => net p ctx
    | none => .error "No AI provider is configured. Please add your API key in Settings."

-- ==================== application state machine (App.tsx, DashboardView.tsx) ====================

/-- In-memory snapshot held by the App component. -/
structure AppState where
  categories : List Category
  notes : List Note
  deriving DecidableEq, Repr

/-- Store calls issued by the category-deletion handler, in order. -/
inductive AppCall where
  | migrateCall (fromCatId toCatId : DocId)
  | deleteCall (categoryId : DocId)
  deriving DecidableEq, Repr

/-- Model of the derived filteredNotes of App.tsx (lines 1028-1030): the
active-category filter followed by a case-insensitive substring match of
the search query against title or content. -/
def filteredNotes (notes : List Note) (activeCategoryId : Option DocId)
    (searchQuery : String) : List Note :=
  (notes.filter (fun n =>
    match activeCategoryId with
    | some cid => n.categoryId == cid
    | none => true)).filter (fun n =>
      strIncludes (strLower n.title) (strLower searchQuery) ||
      strIncludes (strLower n.content) (strLower searchQuery))

/-- Model of the searchResults memo of DashboardView.tsx (lines 26-50):
none when the query is blank after trimming; otherwise the categories
matched by name and the notes matched by title, content, category name or
tag, all case-insensitive substring tests. -/
def dashboardSearchResults (categories : List Category) (notes : List Note)
    (searchQuery : String) : Option (List Category × List Note) :=
  if strTrim searchQuery = "" then none
  else
    let query := strTrim (strLower searchQuery)
    let matchedCategories := categories.filter (fun c =>
      strIncludes (strLower c.name) query)
    let matchedNotes := notes.filter (fun note =>
      let categoryName :=
        match categories.find? (fun c => c.id == note.categoryId) with
        | some c => strLower c.name
        | none => ""
      strIncludes (strLower note.title) query ||
      strIncludes (strLower note.content) query ||
      strIncludes categoryName query ||
      (note.tags.getD []).any (fun t => strIncludes (strLower t) query))
    some (matchedCategories, matchedNotes)

/-- Model of handleDeleteCategory (App.tsx lines 1139-1155): bail out on an
empty category list or an unconfirmed dialog; otherwise look for a fallback
category (any other category), and when one exists migrate the notes of the
doomed category in the store and mirror the reassignment in memory; then
delete the category in the store and drop it from the in-memory list.  The
returned call list records the store mutations in issue order. -/
def handleDeleteCategory (st : AppState) (db : DB) (targetId : DocId)
    (confirmed : Bool) : AppState × DB × List AppCall :=
  if st.categories.length ≤ 0 then (st, db, [])
  else if !confirmed then (st, db, [])
  else
    let fallback := st.categories.find? (fun c => c.id != targetId)
    let step :=
      match fallback with
      | some fb =>
        let db1 := migrateNotesToCategory db targetId fb.id
        let st1 := { st with notes := st.notes.map (fun (n : Note) =>
          if n.categoryId = targetId then { n with categoryId := fb.id } else n) }
        (st1, db1, [AppCall.migrateCall targetId fb.id])
      | none => (st, db, ([] : List AppCall))
    let db2 :=
      match deleteCategory step.2.1 targetId none with
      | .ok d => d
      | .error _ => step.2.1
    let st2 := { step.1 with
      categories := step.1.categories.filter (fun c => c.id != targetId) }
    (st2, db2, step.2.2 ++ [AppCall.deleteCall targetId])

-- ==================== general helper lemmas ====================

theorem not_mem_map_of_lt {α : Type} (f : α → Nat) (l : List α) (k : Nat)
    (h : ∀ a ∈ l, f a < k) : k ∉ l.map f := by
  intro hk
  rcases List.mem_map.mp hk with ⟨a, ha, hfa⟩
  exact absurd (hfa ▸ h a ha) (lt_irrefl k)

/-- An optional credential that is absent or blank after trimming. -/
def blankKey : Option String → Prop
  | none => True
  | some s => strTrim s = ""

instance (o : Option String) : Decidable (blankKey o) :=
  match o with
  | none => .isTrue trivial
  | some s => inferInstanceAs (Decidable (strTrim s = ""))

-- ==================== C4: saveNote create-path visibility ====================

/-- C4: on the create path of saveNote (no note id), the created note is
public exactly when both isAdmin and categoryIsPublic are true; it is
stored in the matching partition under a fresh id, the other partition is
untouched, and the returned isPublic is the partition flag of the stored
document. -/
theorem saveNote_create_visibility (db : DB) (userId : String)
    (note : NoteInput) (isAdmin categoryIsPublic : Option Bool) (now : Nat)
    (hid : note.id = none) (hwf : db.WF) :
    ∃ db2 created,
      saveNote db userId note isAdmin categoryIsPublic now =
        .ok (db2, created.id, created.isPublic) ∧
      created.isPublic = (isAdmin.getD false && categoryIsPublic.getD false) ∧
      (created.isPublic = true ↔ isAdmin = some true ∧ categoryIsPublic = some true) ∧
      created.id = db.nextId ∧
      (created.isPublic = true →
        db2.pubNotes = db.pubNotes ++ [created] ∧
        db2.privNotes = db.privNotes ∧
        created.id ∉ db2.privNotes.map Note.id) ∧
      (created.isPublic = false →
        db2.privNotes = db.privNotes ++ [created] ∧
        db2.pubNotes = db.pubNotes ∧
        created.id ∉ db2.pubNotes.map Note.id) := by
  have hfreshPriv : db.nextId ∉ db.privNotes.map Note.id :=
    not_mem_map_of_lt Note.id db.privNotes db.nextId hwf.1
  have hfreshPub : db.nextId ∉ db.pubNotes.map Note.id :=
    not_mem_map_of_lt Note.id db.pubNotes db.nextId hwf.2.1
  have hopt : ∀ o : Option Bool, (o.getD false = true ↔ o = some true) := by
    intro o; cases o with
    | none => simp
    | some b => cases b <;> simp
  cases hb : isAdmin.getD false && categoryIsPublic.getD false with
  | false =>
    refine ⟨{ db with
        privNotes := db.privNotes ++ [⟨db.nextId, note.categoryId, note.title,
          note.content, note.imageUrl, note.images, note.tags, now, now,
          false, some userId⟩]
        nextId := db.nextId + 1 },
      ⟨db.nextId, note.categoryId, note.title, note.content,
      note.imageUrl, note.images, note.tags, now, now, false, some userId⟩,
      ?_, rfl, ?_, rfl, ?_, ?_⟩
    · simp [saveNote, hid, hb]
    · simp only [Bool.false_eq_true, false_iff]
      intro ⟨ha, hc⟩
      rw [ha, hc] at hb
      simp at hb
    · intro h; exact absurd h (by simp)
    · intro _
      exact ⟨rfl, rfl, hfreshPub⟩
  | true =>
    refine ⟨{ db with
        pubNotes := db.pubNotes ++ [⟨db.nextId, note.categoryId, note.title,
          note.content, note.imageUrl, note.images, note.tags, now, now,
          true, some userId⟩]
        nextId := db.nextId + 1 },
      ⟨db.nextId, note.categoryId, note.title, note.content,
      note.imageUrl, note.images, note.tags, now, now, true, some userId⟩,
      ?_, rfl, ?_, rfl, ?_, ?_⟩
    · simp [saveNote, hid, hb]
    · constructor
      · intro _
        rcases Bool.and_eq_true_iff.mp hb with ⟨ha, hc⟩
        exact ⟨(hopt isAdmin).mp ha, (hopt categoryIsPublic).mp hc⟩
      · intro _; rfl
    · intro _
      exact ⟨rfl, rfl, hfreshPriv⟩
    · intro h; exact absurd h (by simp)

/-- Witness for C4: a non-admin creating in a public category gets a
private note (Scenario A shape). -/
theorem saveNote_create_visibility_witness :
    ∃ db2 created,
      saveNote ⟨[], [], [], [], 5⟩ "user1"
        ⟨none, 3, "X", "Y", none, none, none, none⟩ (some false) (some true) 9 =
        .ok (db2, created.id, created.isPublic) ∧
      created.isPublic = ((some false).getD false && (some true).getD false) ∧
      (created.isPublic = true ↔ some false = some true ∧ some true = some true) ∧
      created.id = (5 : Nat) ∧
      (created.isPublic = true →
        db2.pubNotes = [] ++ [created] ∧
        db2.privNotes = [] ∧
        created.id ∉ db2.privNotes.map Note.id) ∧
      (created.isPublic = false →
        db2.privNotes = [] ++ [created] ∧
        db2.pubNotes = [] ∧
        created.id ∉ db2.pubNotes.map Note.id) :=
  saveNote_create_visibility ⟨[], [], [], [], 5⟩ "user1"
    ⟨none, 3, "X", "Y", none, none, none, none⟩ (some false) (some true) 9
    rfl (by decide)

-- ==================== C7: AI configuration gating ====================

/-- C7: configuring with credentials that are absent or blank after
trimming registers zero providers, and enhance on a service with an empty
registry rejects with the no-provider-configured error without consulting
the network (the outcome is the same for every network function). -/
theorem aiService_gating (gk ck : Option String) (pref : Option AIProviderType)
    (svc : AIService) (ctx : AIRequestContext)
    (net net2 : ProviderInstance → AIRequestContext → Except String AIResponse)
    (hg : blankKey gk) (hc : blankKey ck) (hempty : svc.providers = []) :
    (AIService.configure ⟨gk, ck, pref⟩).providers = [] ∧
    svc.enhanceWith ctx none net =
      .error "No AI provider is configured. Please add your API key in Settings." ∧
    svc.enhanceWith ctx none net = svc.enhanceWith ctx none net2 := by
  have hskip : ∀ s : String, strTrim s = "" → providerConfigured s = false := by
    intro s hs
    have hdata : (strTrim s).data = [] := by rw [hs]
    simp [providerConfigured, hdata]
  have key : ∀ o : Option String, blankKey o →
      (jsTruthyStr o = false ∨ providerConfigured (o.getD "") = false) := by
    intro o ho
    cases o with
    | none => exact .inl rfl
    | some s =>
      by_cases hs : s = ""
      · exact .inl (by simp [jsTruthyStr, hs])
      · exact .inr (by simpa using hskip s ho)
  have hcfg : (AIService.configure ⟨gk, ck, pref⟩).providers = [] := by
    unfold AIService.configure
    rcases key gk hg with h1 | h1 <;> rcases key ck hc with h2 | h2 <;>
      simp [h1, h2]
  have hpref : svc.getPreferredProvider = none := by
    unfold AIService.getPreferredProvider
    cases svc.preferredProvider with
    | none => simp [hempty]
    | some t => simp [registryGet, hempty]
  refine ⟨hcfg, ?_, ?_⟩
  · unfold AIService.enhanceWith
    simp [hpref]
  · unfold AIService.enhanceWith
    simp [hpref]

/-- Witness for C7: the blank gemini credential of the spec example
registers nothing, and enhance on the resulting empty registry rejects. -/
theorem aiService_gating_witness :
    (AIService.configure ⟨some "   ", some "", none⟩).providers = [] ∧
    AIService.enhanceWith ⟨[], none⟩ ⟨none, none, none, none⟩ none
      (fun _ _ => .ok ⟨none, "x", none⟩) =
      .error "No AI provider is configured. Please add your API key in Settings." :=
  have h := aiService_gating (some "   ") (some "") none ⟨[], none⟩
    ⟨none, none, none, none⟩ (fun _ _ => .ok ⟨none, "x", none⟩)
    (fun _ _ => .error "e") (by decide) (by decide) rfl
  ⟨h.1, h.2.1⟩

-- ==================== C10: AI settings round trip ====================

theorem jsOrNull_idem (o : Option String) : jsOrNull (jsOrNull o) = jsOrNull o := by
  cases o with
  | none => rfl
  | some k =>
    by_cases h : k = "" <;> simp [jsOrNull, h]

/-- C10: saving AI settings and reading them back returns every non-empty
credential and the preferred provider unchanged, while an absent or empty
credential is stored as null and comes back absent, so that a cleared key
cannot re-register its provider on the next configure. -/
theorem aiSettings_roundTrip (prev : Option StoredAISettings)
    (s : UserAISettings) (now : Nat) :
    fetchUserAISettings (some (saveUserAISettings prev s now)) =
      some ⟨jsOrNull s.geminiApiKey, jsOrNull s.chatgptApiKey, s.preferredProvider⟩ ∧
    (∀ k, s.geminiApiKey = some k → k ≠ "" →
      (fetchUserAISettings (some (saveUserAISettings prev s now))).map
        UserAISettings.geminiApiKey = some (some k)) ∧
    (∀ k, s.chatgptApiKey = some k → k ≠ "" →
      (fetchUserAISettings (some (saveUserAISettings prev s now))).map
        UserAISettings.chatgptApiKey = some (some k)) ∧
    (fetchUserAISettings (some (saveUserAISettings prev s now))).map
      UserAISettings.preferredProvider = some s.preferredProvider ∧
    (s.geminiApiKey = none ∨ s.geminiApiKey = some "" →
      (saveUserAISettings prev s now).geminiApiKey = none ∧
      (fetchUserAISettings (some (saveUserAISettings prev s now))).map
        UserAISettings.geminiApiKey = some none ∧
      registryGet (AIService.configure
        ((fetchUserAISettings (some (saveUserAISettings prev s now))).getD
          ⟨none, none, none⟩)).providers AIProviderType.gemini = none) ∧
    (s.chatgptApiKey = none ∨ s.chatgptApiKey = some "" →
      (saveUserAISettings prev s now).chatgptApiKey = none ∧
      (fetchUserAISettings (some (saveUserAISettings prev s now))).map
        UserAISettings.chatgptApiKey = some none ∧
      registryGet (AIService.configure
        ((fetchUserAISettings (some (saveUserAISettings prev s now))).getD
          ⟨none, none, none⟩)).providers AIProviderType.chatgpt = none) := by
  have hfetch : fetchUserAISettings (some (saveUserAISettings prev s now)) =
      some ⟨jsOrNull s.geminiApiKey, jsOrNull s.chatgptApiKey, s.preferredProvider⟩ := by
    simp [fetchUserAISettings, saveUserAISettings, jsOrNull_idem]
  refine ⟨hfetch, ?_, ?_, ?_, ?_, ?_⟩
  · intro k hk hne
    simp [hfetch, hk, jsOrNull, hne]
  · intro k hk hne
    simp [hfetch, hk, jsOrNull, hne]
  · simp [hfetch]
  · intro hcase
    have hnull : jsOrNull s.geminiApiKey = none := by
      rcases hcase with h | h <;> simp [h, jsOrNull]
    refine ⟨by simp [saveUserAISettings, hnull], by simp [hfetch, hnull], ?_⟩
    rw [hfetch]
    unfold AIService.configure
    simp only [Option.getD_some, hnull]
    rcases hck : jsOrNull s.chatgptApiKey with _ | k
    · simp [jsTruthyStr, registryGet]
    · by_cases hk0 : k = ""
      · simp [jsTruthyStr, hk0, registryGet]
      · by_cases hkc : providerConfigured k = true
        · simp [jsTruthyStr, hk0, hkc, registryGet, List.find?]
        · simp only [Bool.not_eq_true] at hkc
          simp [jsTruthyStr, hk0, hkc, registryGet]
  · intro hcase
    have hnull : jsOrNull s.chatgptApiKey = none := by
      rcases hcase with h | h <;> simp [h, jsOrNull]
    refine ⟨by simp [saveUserAISettings, hnull], by simp [hfetch, hnull], ?_⟩
    rw [hfetch]
    unfold AIService.configure
    simp only [Option.getD_some, hnull]
    rcases hck : jsOrNull s.geminiApiKey with _ | k
    · simp [jsTruthyStr, registryGet]
    · by_cases hk0 : k = ""
      · simp [jsTruthyStr, hk0, registryGet]
      · by_cases hkc : providerConfigured k = true
        · simp [jsTruthyStr, hk0, hkc, registryGet, List.find?]
        · simp only [Bool.not_eq_true] at hkc
          simp [jsTruthyStr, hk0, hkc, registryGet]

/-- Witness for C10: an emptied gemini key comes back absent and cannot
re-register, while the non-empty chatgpt key round-trips unchanged. -/
theorem aiSettings_roundTrip_witness :
    fetchUserAISettings (some (saveUserAISettings none
      ⟨some "", some "key", some AIProviderType.gemini⟩ 3)) =
      some ⟨none, some "key", some AIProviderType.gemini⟩ ∧
    (saveUserAISettings none
      ⟨some "", some "key", some AIProviderType.gemini⟩ 3).geminiApiKey = none ∧
    registryGet (AIService.configure
      ((fetchUserAISettings (some (saveUserAISettings none
        ⟨some "", some "key", some AIProviderType.gemini⟩ 3))).getD
        ⟨none, none, none⟩)).providers AIProviderType.gemini = none ∧
    (fetchUserAISettings (some (saveUserAISettings none
      ⟨some "", some "key", some AIProviderType.gemini⟩ 3))).map
      UserAISettings.chatgptApiKey = some (some "key") :=
  have h := aiSettings_roundTrip none ⟨some "", some "key", some AIProviderType.gemini⟩ 3
  have hg := h.2.2.2.2.1 (Or.inr rfl)
  ⟨by simpa [jsOrNull] using h.1, hg.1, hg.2.2,
    h.2.2.1 "key" rfl (by decide)⟩

-- ==================== C2, C3: toggleNotePublish ====================

/-- Sample already-public note used by the concrete toggle statements. -/
def wNotePub : Note :=
  ⟨0, 7, "t", "c", some "img", some ["a", "b"], some ["urgent"], 1, 2, true, some "u"⟩

/-- Store holding only the sample public note. -/
def wDbPub : DB := ⟨[], [], [], [wNotePub], 1⟩

/-- Sample private note carrying a two-element images array. -/
def wNotePriv : Note :=
  ⟨0, 7, "t", "c", some "img", some ["a", "b"], some ["urgent"], 1, 2, false, some "u"⟩

/-- Store holding only the sample private note. -/
def wDbPriv : DB := ⟨[], [], [wNotePriv], [], 1⟩

theorem id_not_mem_filterNe (l : List Note) (k : DocId) :
    k ∉ (l.filter (fun m => m.id ≠ k)).map Note.id := by
  intro hk
  rcases List.mem_map.mp hk with ⟨m, hm, hid⟩
  have hpred := List.of_mem_filter hm
  simp only [decide_not, Bool.not_eq_true', decide_eq_false_iff_not] at hpred
  exact hpred hid

theorem find_append_fresh (l : List Note) (x : Note) (k : DocId)
    (hk : ∀ n ∈ l, n.id ≠ k) (hx : x.id = k) :
    (l ++ [x]).find? (fun n => n.id = k) = some x := by
  induction l with
  | nil => simp [List.find?, hx]
  | cons a t ih =>
    have ha : a.id ≠ k := hk a (List.mem_cons_self a t)
    have hda : decide (a.id = k) = false := by simpa using ha
    simp only [List.cons_append, List.find?_cons, hda]
    exact ih (fun n hn => hk n (List.mem_cons_of_mem a hn))

/-- C2 counterexample: toggling an already-public note with makePublic
true duplicates the document in the public partition — afterwards both
the original public document and a fresh copy with the same title are
present, refuting the no-duplication part of the claim. -/
theorem toggleNotePublish_duplicate_cex :
    (toggleNotePublish wDbPub "u" wNotePub true 5).db.pubNotes.length = 2 ∧
    wNotePub ∈ (toggleNotePublish wDbPub "u" wNotePub true 5).db.pubNotes ∧
    ((toggleNotePublish wDbPub "u" wNotePub true 5).db.pubNotes.countP
      (fun n => n.title = "t")) = 2 := by
  decide

/-- C2 (amended): toggling an already-public note with makePublic true
never throws and still returns a fresh newId with isPublic true, and the
source delete is skipped (the private partition is untouched); but the
call still inserts a fresh copy into the public partition, growing it by
one instead of leaving it unchanged. -/
theorem toggleNotePublish_alreadyPublic (db : DB) (userId : String)
    (note : Note) (now : Nat) (hpub : note.isPublic = true) :
    (toggleNotePublish db userId note true now).isPublic = true ∧
    (toggleNotePublish db userId note true now).newId = db.nextId ∧
    (toggleNotePublish db userId note true now).db.privNotes = db.privNotes ∧
    (toggleNotePublish db userId note true now).db.pubNotes =
      db.pubNotes ++ [cleanNoteCopy userId note now db.nextId true] ∧
    (toggleNotePublish db userId note true now).db.pubNotes.length =
      db.pubNotes.length + 1 ∧
    (note ∈ db.pubNotes →
      note ∈ (toggleNotePublish db userId note true now).db.pubNotes) := by
  refine ⟨by simp [toggleNotePublish, hpub], by simp [toggleNotePublish, hpub],
    by simp [toggleNotePublish, hpub], by simp [toggleNotePublish, hpub],
    by simp [toggleNotePublish, hpub], ?_⟩
  intro hmem
  simp [toggleNotePublish, hpub]
  exact .inl hmem

/-- Witness for the amended C2 at the sample public note. -/
theorem toggleNotePublish_alreadyPublic_witness :
    (toggleNotePublish wDbPub "u" wNotePub true 5).isPublic = true ∧
    (toggleNotePublish wDbPub "u" wNotePub true 5).db.privNotes = wDbPub.privNotes ∧
    wNotePub ∈ (toggleNotePublish wDbPub "u" wNotePub true 5).db.pubNotes :=
  have h := toggleNotePublish_alreadyPublic wDbPub "u" wNotePub 5 rfl
  ⟨h.1, h.2.2.1, h.2.2.2.2.2 (by decide)⟩

/-- C3 counterexample: after toggling the sample private note to public,
the note read back under the returned newId carries no images field even
though the input note held a two-element images array — the multi-image
list is not among the copied content fields. -/
theorem toggleNotePublish_images_cex :
    ((toggleNotePublish wDbPriv "u" wNotePriv true 5).db.pubNotes.find?
      (fun n => n.id = (toggleNotePublish wDbPriv "u" wNotePriv true 5).newId)).map
      Note.images = some none ∧
    wNotePriv.images = some ["a", "b"] := by
  decide

/-- C3 (amended): toggling a note to the opposite partition and reading
the returned newId there yields exactly the sanitized copy: title,
content, imageUrl, tags and createdAt equal the input note (the images
array is dropped), isPublic is flipped, updatedAt is advanced to now, and
the original id is no longer resolvable in its old partition. -/
theorem toggleNotePublish_roundTrip (db : DB) (userId : String) (note : Note)
    (now : Nat) (hwf : db.WF) (hnow : note.updatedAt < now) :
    (toggleNotePublish db userId note (!note.isPublic) now).isPublic =
      !note.isPublic ∧
    ((toggleNotePublish db userId note (!note.isPublic) now).db.notesOf
        (!note.isPublic)).find?
      (fun n => n.id = (toggleNotePublish db userId note (!note.isPublic) now).newId) =
      some (cleanNoteCopy userId note now db.nextId (!note.isPublic)) ∧
    (cleanNoteCopy userId note now db.nextId (!note.isPublic)).title = note.title ∧
    (cleanNoteCopy userId note now db.nextId (!note.isPublic)).content = note.content ∧
    (cleanNoteCopy userId note now db.nextId (!note.isPublic)).imageUrl = note.imageUrl ∧
    (cleanNoteCopy userId note now db.nextId (!note.isPublic)).tags = note.tags ∧
    (cleanNoteCopy userId note now db.nextId (!note.isPublic)).createdAt = note.createdAt ∧
    note.updatedAt <
      (cleanNoteCopy userId note now db.nextId (!note.isPublic)).updatedAt ∧
    note.id ∉ ((toggleNotePublish db userId note (!note.isPublic) now).db.notesOf
      note.isPublic).map Note.id := by
  cases hp : note.isPublic with
  | false =>
    have hfresh : ∀ n ∈ db.pubNotes, n.id ≠ db.nextId := by
      intro n hn
      exact Nat.ne_of_lt (hwf.2.1 n hn)
    refine ⟨by simp [toggleNotePublish, hp], ?_, rfl, rfl, rfl, rfl, rfl,
      hnow, ?_⟩
    · have : (toggleNotePublish db userId note true now).db.pubNotes =
          db.pubNotes ++ [cleanNoteCopy userId note now db.nextId true] := by
        simp [toggleNotePublish, hp]
      simp only [hp, Bool.not_false, DB.notesOf, if_pos rfl, this]
      have hnewId : (toggleNotePublish db userId note true now).newId = db.nextId := by
        simp [toggleNotePublish, hp]
      rw [hnewId]
      exact find_append_fresh db.pubNotes _ db.nextId hfresh rfl
    · have : (toggleNotePublish db userId note true now).db.privNotes =
          db.privNotes.filter (fun m => m.id ≠ note.id) := by
        simp [toggleNotePublish, hp]
      simp only [hp, Bool.not_false, DB.notesOf, this]
      exact id_not_mem_filterNe db.privNotes note.id
  | true =>
    have hfresh : ∀ n ∈ db.privNotes, n.id ≠ db.nextId := by
      intro n hn
      exact Nat.ne_of_lt (hwf.1 n hn)
    refine ⟨by simp [toggleNotePublish, hp], ?_, rfl, rfl, rfl, rfl, rfl,
      hnow, ?_⟩
    · have : (toggleNotePublish db userId note false now).db.privNotes =
          db.privNotes ++ [cleanNoteCopy userId note now db.nextId false] := by
        simp [toggleNotePublish, hp]
      simp only [hp, Bool.not_true, DB.notesOf, this]
      have hnewId : (toggleNotePublish db userId note false now).newId = db.nextId := by
        simp [toggleNotePublish, hp]
      rw [hnewId]
      exact find_append_fresh db.privNotes _ db.nextId hfresh rfl
    · have : (toggleNotePublish db userId note false now).db.pubNotes =
          db.pubNotes.filter (fun m => m.id ≠ note.id) := by
        simp [toggleNotePublish, hp]
      simp only [hp, Bool.not_true, DB.notesOf, this]
      exact id_not_mem_filterNe db.pubNotes note.id

/-- Witness for the amended C3 at the sample private note. -/
theorem toggleNotePublish_roundTrip_witness :
    ((toggleNotePublish wDbPriv "u" wNotePriv (!wNotePriv.isPublic) 5).db.notesOf
        (!wNotePriv.isPublic)).find?
      (fun n => n.id =
        (toggleNotePublish wDbPriv "u" wNotePriv (!wNotePriv.isPublic) 5).newId) =
      some (cleanNoteCopy "u" wNotePriv 5 wDbPriv.nextId (!wNotePriv.isPublic)) ∧
    wNotePriv.id ∉ ((toggleNotePublish wDbPriv "u" wNotePriv (!wNotePriv.isPublic) 5).db.notesOf
      wNotePriv.isPublic).map Note.id :=
  have h := toggleNotePublish_roundTrip wDbPriv "u" wNotePriv 5 (by decide) (by decide)
  ⟨h.2.1, h.2.2.2.2.2.2.2.2⟩

-- ==================== C8: read paths ====================

/-- C8: every read path returns the empty list when the underlying fetch
throws, and on success fetchCategories returns the public categories
followed by the private ones, each block a permutation of its partition
ordered by creation time and tagged with the isPublic of the partition of
origin. -/
theorem fetch_read_paths (db : DB) :
    fetchCategories db true = [] ∧
    fetchNotes db true = [] ∧
    fetchPublicCategories db true = [] ∧
    fetchPublicNotes db true = [] ∧
    ∃ A B, fetchCategories db false = A ++ B ∧
      A.Perm (db.pubCats.map (tagCat true)) ∧
      B.Perm (db.privCats.map (tagCat false)) ∧
      A.Sorted catCreatedLe ∧
      B.Sorted catCreatedLe ∧
      (∀ c ∈ A, c.isPublic = true) ∧
      (∀ c ∈ B, c.isPublic = false) := by
  refine ⟨rfl, rfl, rfl, rfl,
    (db.pubCats.insertionSort catCreatedLe).map (tagCat true),
    (db.privCats.insertionSort catCreatedLe).map (tagCat false),
    rfl, ?_, ?_, ?_, ?_, ?_, ?_⟩
  · exact (List.perm_insertionSort catCreatedLe db.pubCats).map (tagCat true)
  · exact (List.perm_insertionSort catCreatedLe db.privCats).map (tagCat false)
  · exact List.Pairwise.map (tagCat true) (fun a b h => h)
      (List.sorted_insertionSort catCreatedLe db.pubCats)
  · exact List.Pairwise.map (tagCat false) (fun a b h => h)
      (List.sorted_insertionSort catCreatedLe db.privCats)
  · intro c hc
    rcases List.mem_map.mp hc with ⟨a, _, ha⟩
    rw [← ha]; rfl
  · intro c hc
    rcases List.mem_map.mp hc with ⟨a, _, ha⟩
    rw [← ha]; rfl

-- ==================== C9: search ====================

/-- Sample note whose only occurrence of the query is in its tag list. -/
def wTagNote : Note := ⟨0, 7, "alpha", "beta", none, none, some ["urgent"], 1, 2, false, none⟩

/-- C9 counterexample: the search filter bound to the category-detail
search box (filteredNotes, App.tsx 1028-1030) does not match on tags: a
note tagged urgent is dropped for the query urgent although the claim
says a tag substring match suffices. -/
theorem filteredNotes_tag_cex :
    filteredNotes [wTagNote] none "urgent" = [] ∧
    wTagNote.tags = some ["urgent"] ∧
    strIncludes (strLower "urgent") (strLower "urgent") = true := by
  decide

/-- C9 (amended): search is a pure in-memory filter over the snapshot; the
dashboard search matches a note when the trimmed lowercased query occurs
in its title, content, category name or a tag, while the category-detail
filter (filteredNotes) matches only on title or content after applying
the active-category filter. -/
theorem search_spec (categories : List Category) (notes : List Note)
    (q : String) (hq : strTrim q ≠ "") :
    ∃ mc mn, dashboardSearchResults categories notes q = some (mc, mn) ∧
      (∀ n, n ∈ mn ↔ n ∈ notes ∧
        (strIncludes (strLower n.title) (strTrim (strLower q)) = true ∨
         strIncludes (strLower n.content) (strTrim (strLower q)) = true ∨
         strIncludes (match categories.find? (fun c => c.id == n.categoryId) with
            | some c => strLower c.name
            | none => "") (strTrim (strLower q)) = true ∨
         ∃ t ∈ n.tags.getD [], strIncludes (strLower t) (strTrim (strLower q)) = true)) ∧
      (∀ c, c ∈ mc ↔ c ∈ categories ∧
        strIncludes (strLower c.name) (strTrim (strLower q)) = true) ∧
      (∀ act n, n ∈ filteredNotes notes act q ↔ n ∈ notes ∧
        (∀ cid, act = some cid → n.categoryId = cid) ∧
        (strIncludes (strLower n.title) (strLower q) = true ∨
         strIncludes (strLower n.content) (strLower q) = true)) := by
  unfold dashboardSearchResults
  rw [if_neg hq]
  refine ⟨_, _, rfl, ?_, ?_, ?_⟩
  · intro n
    simp [List.mem_filter, List.any_eq_true]
    tauto
  · intro c
    simp [List.mem_filter]
  · intro act n
    cases act with
    | none =>
      simp [filteredNotes, List.mem_filter]
    | some cid =>
      simp [filteredNotes, List.mem_filter]
      tauto

/-- Sample category used by the concrete search and deletion statements. -/
def wCat7 : Category := ⟨7, "Math", "bg", "ic", false, none, 0⟩

/-- Witness for the amended C9: the tag-only note is found by the
dashboard search for an upper-case query. -/
theorem search_spec_witness :
    ∃ mc mn, dashboardSearchResults [wCat7] [wTagNote] "URGENT" = some (mc, mn) ∧
      wTagNote ∈ mn := by
  obtain ⟨mc, mn, hres, hmn, _, _⟩ :=
    search_spec [wCat7] [wTagNote] "URGENT" (by decide)
  exact ⟨mc, mn, hres, (hmn wTagNote).mpr (by decide)⟩

-- ==================== C6: category deletion orchestration ====================

/-- C6 counterexample: deleting the only existing category (no fallback
available) is not refused — the migration step is skipped but the delete
is still issued to the store and the category disappears from the private
partition. -/
theorem handleDeleteCategory_nofallback_cex :
    (handleDeleteCategory ⟨[wCat7], []⟩ ⟨[wCat7], [], [], [], 10⟩ 7 true).2.2 =
      [AppCall.deleteCall 7] ∧
    (handleDeleteCategory ⟨[wCat7], []⟩ ⟨[wCat7], [], [], [], 10⟩ 7 true).2.1.privCats =
      [] := by
  decide

/-- C6 (amended): with a confirmed dialog, when a fallback category
exists the handler first migrates the notes of the doomed category in the
store and mirrors the reassignment in memory, and only then issues the
delete (the call list is migrate followed by delete); when no fallback
exists the migration is skipped but the delete is still issued; an
unconfirmed dialog leaves everything untouched. -/
theorem handleDeleteCategory_spec (st : AppState) (db : DB) (targetId : DocId) :
    (∀ fb, st.categories.find? (fun c => c.id != targetId) = some fb →
      handleDeleteCategory st db targetId true =
        ({ categories := st.categories.filter (fun c => c.id != targetId),
           notes := st.notes.map (fun n =>
             if n.categoryId = targetId then { n with categoryId := fb.id } else n) },
         { migrateNotesToCategory db targetId fb.id with
             privCats := db.privCats.filter (fun c => c.id ≠ targetId) },
         [AppCall.migrateCall targetId fb.id, AppCall.deleteCall targetId])) ∧
    (st.categories ≠ [] →
      st.categories.find? (fun c => c.id != targetId) = none →
      handleDeleteCategory st db targetId true =
        ({ categories := st.categories.filter (fun c => c.id != targetId),
           notes := st.notes },
         { db with privCats := db.privCats.filter (fun c => c.id ≠ targetId) },
         [AppCall.deleteCall targetId])) ∧
    handleDeleteCategory st db targetId false = (st, db, []) := by
  refine ⟨?_, ?_, ?_⟩
  · intro fb hfb
    have hmem : fb ∈ st.categories := List.mem_of_find?_eq_some hfb
    have hlen : ¬ (st.categories.length ≤ 0) := by
      simpa [Nat.le_zero, List.length_eq_zero] using List.ne_nil_of_mem hmem
    unfold handleDeleteCategory
    rw [if_neg hlen, hfb]
    simp [deleteCategory, migrateNotesToCategory]
  · intro hne hfb
    have hlen : ¬ (st.categories.length ≤ 0) := by
      simpa [Nat.le_zero, List.length_eq_zero] using hne
    unfold handleDeleteCategory
    rw [if_neg hlen, hfb]
    simp [deleteCategory]
  · unfold handleDeleteCategory
    by_cases hlen : st.categories.length ≤ 0
    · rw [if_pos hlen]
    · rw [if_neg hlen]
      simp

/-- Witness for the amended C6: with a second category present, the store
calls are migrate followed by delete. -/
theorem handleDeleteCategory_spec_witness :
    handleDeleteCategory ⟨[wCat7, ⟨8, "Other", "bg", "ic", false, none, 1⟩], []⟩
        ⟨[wCat7, ⟨8, "Other", "bg", "ic", false, none, 1⟩], [], [], [], 10⟩ 7 true =
      ({ categories := [⟨8, "Other", "bg", "ic", false, none, 1⟩],
         notes := [] },
       ⟨[⟨8, "Other", "bg", "ic", false, none, 1⟩], [], [], [], 10⟩,
       [AppCall.migrateCall 7 8, AppCall.deleteCall 7]) := by
  have h := (handleDeleteCategory_spec
    ⟨[wCat7, ⟨8, "Other", "bg", "ic", false, none, 1⟩], []⟩
    ⟨[wCat7, ⟨8, "Other", "bg", "ic", false, none, 1⟩], [], [], [], 10⟩ 7).1
    ⟨8, "Other", "bg", "ic", false, none, 1⟩ (by decide)
  rw [h]
  decide

-- ==================== C1, C5: toggleCategoryPublish lemmas ====================

theorem migrateCatNotes_nil (userId : String) (ncid : DocId) (now : Nat)
    (dst : Bool) (db : DB) :
    migrateCatNotes userId ncid now dst [] db = ⟨db, [], []⟩ := rfl

theorem migrateCatNotes_cons_true (userId : String) (ncid : DocId) (now : Nat)
    (n : Note) (rest : List Note) (db : DB) :
    migrateCatNotes userId ncid now true (n :: rest) db =
      (let out := migrateCatNotes userId ncid now true rest
        { db with
          pubNotes := db.pubNotes ++ [migratedNoteCopy userId n now ncid db.nextId true]
          nextId := db.nextId + 1
          privNotes := db.privNotes.filter (fun m => m.id ≠ n.id) }
       ⟨out.db, (n.id, db.nextId) :: out.idMap,
        StoreOp.createNote true db.nextId :: StoreOp.deleteNote false n.id :: out.trace⟩) :=
  rfl

theorem migrateCatNotes_cons_false (userId : String) (ncid : DocId) (now : Nat)
    (n : Note) (rest : List Note) (db : DB) :
    migrateCatNotes userId ncid now false (n :: rest) db =
      (let out := migrateCatNotes userId ncid now false rest
        { db with
          privNotes := db.privNotes ++ [migratedNoteCopy userId n now ncid db.nextId false]
          nextId := db.nextId + 1
          pubNotes := db.pubNotes.filter (fun m => m.id ≠ n.id) }
       ⟨out.db, (n.id, db.nextId) :: out.idMap,
        StoreOp.createNote false db.nextId :: StoreOp.deleteNote true n.id :: out.trace⟩) :=
  rfl

theorem assocLookup_cons_self (a b : DocId) (m : List (DocId × DocId)) :
    assocLookup ((a, b) :: m) a = some b := by
  simp [assocLookup, List.find?_cons]

theorem assocLookup_cons_ne (a b k : DocId) (m : List (DocId × DocId))
    (h : k ≠ a) : assocLookup ((a, b) :: m) k = assocLookup m k := by
  have hne : (a = k) = False := by simp [Ne.symm h]
  simp [assocLookup, List.find?_cons, hne]

theorem migrateCatNotes_cats (userId : String) (ncid : DocId) (now : Nat)
    (dst : Bool) (l : List Note) (db : DB) :
    (migrateCatNotes userId ncid now dst l db).db.privCats = db.privCats ∧
    (migrateCatNotes userId ncid now dst l db).db.pubCats = db.pubCats := by
  induction l generalizing db with
  | nil => exact ⟨rfl, rfl⟩
  | cons n rest ih =>
    cases dst with
    | true =>
      rw [migrateCatNotes_cons_true]
      exact ih _
    | false =>
      rw [migrateCatNotes_cons_false]
      exact ih _

theorem migrateCatNotes_keys (userId : String) (ncid : DocId) (now : Nat)
    (dst : Bool) (l : List Note) (db : DB) :
    (migrateCatNotes userId ncid now dst l db).idMap.map Prod.fst = l.map Note.id := by
  induction l generalizing db with
  | nil => rfl
  | cons n rest ih =>
    cases dst with
    | true =>
      rw [migrateCatNotes_cons_true]
      simp only [List.map_cons]
      rw [ih]
    | false =>
      rw [migrateCatNotes_cons_false]
      simp only [List.map_cons]
      rw [ih]

theorem migrateCatNotes_dest_mono (userId : String) (ncid : DocId) (now : Nat)
    (dst : Bool) (l : List Note) (db : DB) (x : Note)
    (hx : x ∈ db.notesOf dst) :
    x ∈ (migrateCatNotes userId ncid now dst l db).db.notesOf dst := by
  induction l generalizing db with
  | nil => exact hx
  | cons n rest ih =>
    cases dst with
    | true =>
      rw [migrateCatNotes_cons_true]
      apply ih
      simp only [DB.notesOf, if_pos] at hx ⊢
      exact List.mem_append_left _ hx
    | false =>
      rw [migrateCatNotes_cons_false]
      apply ih
      simp only [DB.notesOf] at hx ⊢
      exact List.mem_append_left _ hx

theorem migrateCatNotes_creates (userId : String) (ncid : DocId) (now : Nat)
    (dst : Bool) (l : List Note) (db : DB) :
    ∀ n ∈ l, ∃ newId,
      assocLookup (migrateCatNotes userId ncid now dst l db).idMap n.id = some newId ∧
      (∃ n2 ∈ (migrateCatNotes userId ncid now dst l db).db.notesOf dst,
        n2.id = newId ∧ n2.categoryId = ncid) ∧
      StoreOp.createNote dst newId ∈ (migrateCatNotes userId ncid now dst l db).trace := by
  induction l generalizing db with
  | nil => intro n hn; cases hn
  | cons h rest ih =>
    intro n hn
    cases dst with
    | true =>
      rw [migrateCatNotes_cons_true]
      rcases List.mem_cons.mp hn with heq | hn2
      · subst heq
        refine ⟨db.nextId, assocLookup_cons_self _ _ _, ⟨?_, ?_⟩, List.mem_cons_self _ _⟩
        · exact migratedNoteCopy userId n now ncid db.nextId true
        · refine ⟨?_, rfl, rfl⟩
          apply migrateCatNotes_dest_mono
          simp only [DB.notesOf, if_pos]
          exact List.mem_append_right _ (List.mem_singleton_self _)
      · by_cases hkey : n.id = h.id
        · refine ⟨db.nextId, ?_, ⟨migratedNoteCopy userId h now ncid db.nextId true,
            ?_, rfl, rfl⟩, List.mem_cons_self _ _⟩
          · rw [hkey]; exact assocLookup_cons_self _ _ _
          · apply migrateCatNotes_dest_mono
            simp only [DB.notesOf, if_pos]
            exact List.mem_append_right _ (List.mem_singleton_self _)
        · obtain ⟨w, hw, hmem, htr⟩ := ih _ n hn2
          exact ⟨w, by rw [assocLookup_cons_ne _ _ _ _ hkey]; exact hw, hmem,
            List.mem_cons_of_mem _ (List.mem_cons_of_mem _ htr)⟩
    | false =>
      rw [migrateCatNotes_cons_false]
      rcases List.mem_cons.mp hn with heq | hn2
      · subst heq
        refine ⟨db.nextId, assocLookup_cons_self _ _ _, ⟨?_, ?_⟩, List.mem_cons_self _ _⟩
        · exact migratedNoteCopy userId n now ncid db.nextId false
        · refine ⟨?_, rfl, rfl⟩
          apply migrateCatNotes_dest_mono
          simp only [DB.notesOf]
          exact List.mem_append_right _ (List.mem_singleton_self _)
      · by_cases hkey : n.id = h.id
        · refine ⟨db.nextId, ?_, ⟨migratedNoteCopy userId h now ncid db.nextId false,
            ?_, rfl, rfl⟩, List.mem_cons_self _ _⟩
          · rw [hkey]; exact assocLookup_cons_self _ _ _
          · apply migrateCatNotes_dest_mono
            simp only [DB.notesOf]
            exact List.mem_append_right _ (List.mem_singleton_self _)
        · obtain ⟨w, hw, hmem, htr⟩ := ih _ n hn2
          exact ⟨w, by rw [assocLookup_cons_ne _ _ _ _ hkey]; exact hw, hmem,
            List.mem_cons_of_mem _ (List.mem_cons_of_mem _ htr)⟩

theorem migrateCatNotes_trace_shape (userId : String) (ncid : DocId) (now : Nat)
    (dst : Bool) (l : List Note) (db : DB) :
    ∀ op ∈ (migrateCatNotes userId ncid now dst l db).trace,
      (∃ i, op = StoreOp.createNote dst i) ∨ (∃ i, op = StoreOp.deleteNote (!dst) i) := by
  induction l generalizing db with
  | nil => intro op hop; cases hop
  | cons n rest ih =>
    intro op hop
    cases dst with
    | true =>
      rw [migrateCatNotes_cons_true] at hop
      rcases List.mem_cons.mp hop with h1 | hop2
      · exact .inl ⟨db.nextId, h1⟩
      · rcases List.mem_cons.mp hop2 with h2 | hop3
        · exact .inr ⟨n.id, h2⟩
        · exact ih _ op hop3
    | false =>
      rw [migrateCatNotes_cons_false] at hop
      rcases List.mem_cons.mp hop with h1 | hop2
      · exact .inl ⟨db.nextId, h1⟩
      · rcases List.mem_cons.mp hop2 with h2 | hop3
        · exact .inr ⟨n.id, h2⟩
        · exact ih _ op hop3

theorem migrateCatNotes_safe (userId : String) (ncid : DocId) (now : Nat)
    (dst : Bool) (l : List Note) (db : DB) :
    ∀ k p oldId,
      StoreOp.deleteNote p oldId ∈ ((migrateCatNotes userId ncid now dst l db).trace.take k) →
      ∃ newId,
        assocLookup (migrateCatNotes userId ncid now dst l db).idMap oldId = some newId ∧
        StoreOp.createNote dst newId ∈
          ((migrateCatNotes userId ncid now dst l db).trace.take k) := by
  induction l generalizing db with
  | nil =>
    intro k p oldId h
    rw [migrateCatNotes_nil] at h
    simp at h
  | cons n rest ih =>
    intro k p oldId h
    cases dst with
    | true =>
      rw [migrateCatNotes_cons_true] at h ⊢
      match k with
      | 0 => simp at h
      | 1 =>
        rw [List.take_succ_cons, List.take_zero] at h
        simp at h
      | (j + 2) =>
        rw [List.take_succ_cons, List.take_succ_cons] at h
        rcases List.mem_cons.mp h with h1 | h2
        · exact absurd h1 (by simp)
        · rcases List.mem_cons.mp h2 with h3 | h4
          · have hid : oldId = n.id := by
              injection h3
            refine ⟨db.nextId, ?_, ?_⟩
            · rw [hid]; exact assocLookup_cons_self _ _ _
            · rw [List.take_succ_cons]
              exact List.mem_cons_self _ _
          · by_cases hkey : oldId = n.id
            · refine ⟨db.nextId, ?_, ?_⟩
              · rw [hkey]; exact assocLookup_cons_self _ _ _
              · rw [List.take_succ_cons]
                exact List.mem_cons_self _ _
            · obtain ⟨w, hw, hc⟩ := ih _ j p oldId h4
              refine ⟨w, by rw [assocLookup_cons_ne _ _ _ _ hkey]; exact hw, ?_⟩
              rw [List.take_succ_cons, List.take_succ_cons]
              exact List.mem_cons_of_mem _ (List.mem_cons_of_mem _ hc)
    | false =>
      rw [migrateCatNotes_cons_false] at h ⊢
      match k with
      | 0 => simp at h
      | 1 =>
        rw [List.take_succ_cons, List.take_zero] at h
        simp at h
      | (j + 2) =>
        rw [List.take_succ_cons, List.take_succ_cons] at h
        rcases List.mem_cons.mp h with h1 | h2
        · exact absurd h1 (by simp)
        · rcases List.mem_cons.mp h2 with h3 | h4
          · have hid : oldId = n.id := by
              injection h3
            refine ⟨db.nextId, ?_, ?_⟩
            · rw [hid]; exact assocLookup_cons_self _ _ _
            · rw [List.take_succ_cons]
              exact List.mem_cons_self _ _
          · by_cases hkey : oldId = n.id
            · refine ⟨db.nextId, ?_, ?_⟩
              · rw [hkey]; exact assocLookup_cons_self _ _ _
              · rw [List.take_succ_cons]
                exact List.mem_cons_self _ _
            · obtain ⟨w, hw, hc⟩ := ih _ j p oldId h4
              refine ⟨w, by rw [assocLookup_cons_ne _ _ _ _ hkey]; exact hw, ?_⟩
              rw [List.take_succ_cons, List.take_succ_cons]
              exact List.mem_cons_of_mem _ (List.mem_cons_of_mem _ hc)

theorem trace_take_assemble (dst : Bool) (newCatId srcCatId : DocId)
    (m : List (DocId × DocId)) (tr : List StoreOp) (olds : List Note) (k : Nat)
    (hshape : ∀ op ∈ tr,
      (∃ i, op = StoreOp.createNote dst i) ∨ (∃ i, op = StoreOp.deleteNote (!dst) i))
    (hsafe : ∀ j p oldId, StoreOp.deleteNote p oldId ∈ tr.take j →
      ∃ w, assocLookup m oldId = some w ∧ StoreOp.createNote dst w ∈ tr.take j)
    (hcomp : ∀ n ∈ olds, ∃ w, assocLookup m n.id = some w ∧
      StoreOp.createNote dst w ∈ tr) :
    (∀ p oldId,
      StoreOp.deleteNote p oldId ∈
        ((StoreOp.createCat dst newCatId ::
          (tr ++ [StoreOp.deleteCat (!dst) srcCatId])).take k) →
      ∃ w, assocLookup m oldId = some w ∧
        StoreOp.createNote dst w ∈
          ((StoreOp.createCat dst newCatId ::
            (tr ++ [StoreOp.deleteCat (!dst) srcCatId])).take k)) ∧
    (∀ p cid,
      StoreOp.deleteCat p cid ∈
        ((StoreOp.createCat dst newCatId ::
          (tr ++ [StoreOp.deleteCat (!dst) srcCatId])).take k) →
      (∀ n ∈ olds, ∃ w, assocLookup m n.id = some w ∧
        StoreOp.createNote dst w ∈
          ((StoreOp.createCat dst newCatId ::
            (tr ++ [StoreOp.deleteCat (!dst) srcCatId])).take k)) ∧
      StoreOp.createCat dst newCatId ∈
        ((StoreOp.createCat dst newCatId ::
          (tr ++ [StoreOp.deleteCat (!dst) srcCatId])).take k)) := by
  constructor
  · intro p oldId h
    match k with
    | 0 => simp at h
    | (j + 1) =>
      rw [List.take_succ_cons] at h
      rcases List.mem_cons.mp h with h1 | h2
      · exact absurd h1 (by simp)
      · rw [List.take_append_eq_append_take] at h2
        rcases List.mem_append.mp h2 with h3 | h3
        · obtain ⟨w, hw, hc⟩ := hsafe j p oldId h3
          refine ⟨w, hw, ?_⟩
          rw [List.take_succ_cons]
          apply List.mem_cons_of_mem
          rw [List.take_append_eq_append_take]
          exact List.mem_append_left _ hc
        · have := List.mem_of_mem_take h3
          simp at this
  · intro p cid h
    match k with
    | 0 => simp at h
    | (j + 1) =>
      rw [List.take_succ_cons] at h
      rcases List.mem_cons.mp h with h1 | h2
      · exact absurd h1 (by simp)
      · rw [List.take_append_eq_append_take] at h2
        rcases List.mem_append.mp h2 with h3 | h3
        · exfalso
          rcases hshape _ (List.mem_of_mem_take h3) with ⟨i, hi⟩ | ⟨i, hi⟩ <;> simp at hi
        · have hlen : tr.length < j := by
            rcases Nat.eq_zero_or_pos (j - tr.length) with h0 | h0
            · rw [h0] at h3
              simp at h3
            · exact Nat.lt_of_sub_ne_zero (Nat.pos_iff_ne_zero.mp h0)
          have htk : tr.take j = tr := List.take_of_length_le (Nat.le_of_lt hlen)
          constructor
          · intro n hn
            obtain ⟨w, hw, hc⟩ := hcomp n hn
            refine ⟨w, hw, ?_⟩
            rw [List.take_succ_cons]
            apply List.mem_cons_of_mem
            rw [List.take_append_eq_append_take, htk]
            exact List.mem_append_left _ hc
          · rw [List.take_succ_cons]
            exact List.mem_cons_self _ _

theorem toggleCategoryPublish_eq_mig_true (db : DB) (userId : String)
    (cat : Category) (now : Nat) (hpriv : cat.isPublic = false) :
    toggleCategoryPublish db userId cat true now =
      (let db1 : DB := { db with
         pubCats := db.pubCats ++ [cleanCategoryCopy userId cat now db.nextId true]
         nextId := db.nextId + 1 }
       let res := migrateCatNotes userId db.nextId now true
         (db.privNotes.filter (fun n => n.categoryId = cat.id)) db1
       ⟨{ res.db with privCats := res.db.privCats.filter (fun c => c.id ≠ cat.id) },
        db.nextId, true, res.idMap,
        StoreOp.createCat true db.nextId ::
          (res.trace ++ [StoreOp.deleteCat false cat.id])⟩) := by
  simp [toggleCategoryPublish, hpriv]

theorem toggleCategoryPublish_eq_skip_true (db : DB) (userId : String)
    (cat : Category) (now : Nat) (hpub : cat.isPublic = true) :
    toggleCategoryPublish db userId cat true now =
      ⟨{ db with
         pubCats := db.pubCats ++ [cleanCategoryCopy userId cat now db.nextId true]
         nextId := db.nextId + 1 },
       db.nextId, true, [], [StoreOp.createCat true db.nextId]⟩ := by
  simp [toggleCategoryPublish, hpub]

theorem toggleCategoryPublish_eq_mig_false (db : DB) (userId : String)
    (cat : Category) (now : Nat) (hpub : cat.isPublic = true) :
    toggleCategoryPublish db userId cat false now =
      (let db1 : DB := { db with
         privCats := db.privCats ++ [cleanCategoryCopy userId cat now db.nextId false]
         nextId := db.nextId + 1 }
       let res := migrateCatNotes userId db.nextId now false
         (db.pubNotes.filter (fun n => n.categoryId = cat.id)) db1
       ⟨{ res.db with pubCats := res.db.pubCats.filter (fun c => c.id ≠ cat.id) },
        db.nextId, false, res.idMap,
        StoreOp.createCat false db.nextId ::
          (res.trace ++ [StoreOp.deleteCat true cat.id])⟩) := by
  simp [toggleCategoryPublish, hpub]

theorem toggleCategoryPublish_eq_skip_false (db : DB) (userId : String)
    (cat : Category) (now : Nat) (hpriv : cat.isPublic = false) :
    toggleCategoryPublish db userId cat false now =
      ⟨{ db with
         privCats := db.privCats ++ [cleanCategoryCopy userId cat now db.nextId false]
         nextId := db.nextId + 1 },
       db.nextId, false, [], [StoreOp.createCat false db.nextId]⟩ := by
  simp [toggleCategoryPublish, hpriv]

/-- C5: along the operation trace of toggleCategoryPublish, in every
prefix (that is, even when the operation fails partway), a deleted note
is preceded by the creation of its destination copy, and a deleted source
category is preceded by the creation of the destination copy of every
note that referenced it and by the creation of the destination category
itself — the operation never deletes before creating. -/
theorem toggleCategoryPublish_ordering (db : DB) (userId : String)
    (cat : Category) (makePublic : Bool) (now : Nat) (k : Nat) :
    (∀ p oldId,
      StoreOp.deleteNote p oldId ∈
        ((toggleCategoryPublish db userId cat makePublic now).trace.take k) →
      ∃ newId,
        assocLookup (toggleCategoryPublish db userId cat makePublic now).migratedNoteIds
          oldId = some newId ∧
        StoreOp.createNote makePublic newId ∈
          ((toggleCategoryPublish db userId cat makePublic now).trace.take k)) ∧
    (∀ p cid,
      StoreOp.deleteCat p cid ∈
        ((toggleCategoryPublish db userId cat makePublic now).trace.take k) →
      (∀ n ∈ (db.notesOf (!makePublic)).filter (fun n => n.categoryId = cat.id),
        ∃ newId,
          assocLookup (toggleCategoryPublish db userId cat makePublic now).migratedNoteIds
            n.id = some newId ∧
          StoreOp.createNote makePublic newId ∈
            ((toggleCategoryPublish db userId cat makePublic now).trace.take k)) ∧
      StoreOp.createCat makePublic
          (toggleCategoryPublish db userId cat makePublic now).newId ∈
        ((toggleCategoryPublish db userId cat makePublic now).trace.take k)) := by
  cases makePublic with
  | true =>
    cases hcp : cat.isPublic with
    | false =>
      rw [toggleCategoryPublish_eq_mig_true db userId cat now hcp]
      exact trace_take_assemble true db.nextId cat.id _ _ _ k
        (migrateCatNotes_trace_shape userId db.nextId now true _ _)
        (migrateCatNotes_safe userId db.nextId now true _ _)
        (fun n hn => by
          obtain ⟨w, hw, _, ht⟩ := migrateCatNotes_creates userId db.nextId now true
            (db.privNotes.filter (fun n => n.categoryId = cat.id))
            { db with
              pubCats := db.pubCats ++ [cleanCategoryCopy userId cat now db.nextId true]
              nextId := db.nextId + 1 } n hn
          exact ⟨w, hw, ht⟩)
    | true =>
      rw [toggleCategoryPublish_eq_skip_true db userId cat now hcp]
      refine ⟨?_, ?_⟩ <;> intro p x h <;>
        · have := List.mem_of_mem_take h
          simp at this
  | false =>
    cases hcp : cat.isPublic with
    | true =>
      rw [toggleCategoryPublish_eq_mig_false db userId cat now hcp]
      exact trace_take_assemble false db.nextId cat.id _ _ _ k
        (migrateCatNotes_trace_shape userId db.nextId now false _ _)
        (migrateCatNotes_safe userId db.nextId now false _ _)
        (fun n hn => by
          obtain ⟨w, hw, _, ht⟩ := migrateCatNotes_creates userId db.nextId now false
            (db.pubNotes.filter (fun n => n.categoryId = cat.id))
            { db with
              privCats := db.privCats ++ [cleanCategoryCopy userId cat now db.nextId false]
              nextId := db.nextId + 1 } n hn
          exact ⟨w, hw, ht⟩)
    | false =>
      rw [toggleCategoryPublish_eq_skip_false db userId cat now hcp]
      refine ⟨?_, ?_⟩ <;> intro p x h <;>
        · have := List.mem_of_mem_take h
          simp at this

theorem catId_not_mem_filterNe (l : List Category) (k : DocId) :
    k ∉ (l.filter (fun c => c.id ≠ k)).map Category.id := by
  intro hk
  rcases List.mem_map.mp hk with ⟨c, hc, hid⟩
  have hpred := List.of_mem_filter hc
  simp only [decide_not, Bool.not_eq_true', decide_eq_false_iff_not] at hpred
  exact hpred hid

/-- C1: publishing a private category re-creates every note that
referenced it in the public partition under the new category id, returns
an old-to-new id map with exactly one entry per such note, and deletes
the old category document from the private partition. -/
theorem toggleCategoryPublish_cascade (db : DB) (userId : String)
    (cat : Category) (now : Nat) (hpriv : cat.isPublic = false) (hwf : db.WF)
    (hp2 : ∀ n ∈ db.pubNotes, n.categoryId ≠ cat.id) :
    (toggleCategoryPublish db userId cat true now).isPublic = true ∧
    (toggleCategoryPublish db userId cat true now).migratedNoteIds.map Prod.fst =
      (db.privNotes.filter (fun n => n.categoryId = cat.id)).map Note.id ∧
    ((toggleCategoryPublish db userId cat true now).migratedNoteIds.map Prod.fst).Nodup ∧
    (∀ n, (n ∈ db.privNotes ∨ n ∈ db.pubNotes) → n.categoryId = cat.id →
      ∃ newId,
        assocLookup (toggleCategoryPublish db userId cat true now).migratedNoteIds
          n.id = some newId ∧
        ∃ n2 ∈ (toggleCategoryPublish db userId cat true now).db.pubNotes,
          n2.id = newId ∧
          n2.categoryId = (toggleCategoryPublish db userId cat true now).newId) ∧
    cat.id ∉ (toggleCategoryPublish db userId cat true now).db.privCats.map
      Category.id := by
  rw [toggleCategoryPublish_eq_mig_true db userId cat now hpriv]
  have hkeys := migrateCatNotes_keys userId db.nextId now true
    (db.privNotes.filter (fun n => n.categoryId = cat.id))
    { db with
      pubCats := db.pubCats ++ [cleanCategoryCopy userId cat now db.nextId true]
      nextId := db.nextId + 1 }
  refine ⟨rfl, hkeys, ?_, ?_, ?_⟩
  · rw [hkeys]
    exact hwf.2.2.2.2.1.sublist ((List.filter_sublist _).map Note.id)
  · intro n hmem hcat
    rcases hmem with hn | hn
    · have holds : n ∈ db.privNotes.filter (fun n => n.categoryId = cat.id) :=
        List.mem_filter.mpr ⟨hn, by simp [hcat]⟩
      obtain ⟨w, hw, ⟨n2, hn2, hid, hcid⟩, _⟩ := migrateCatNotes_creates userId
        db.nextId now true (db.privNotes.filter (fun n => n.categoryId = cat.id))
        { db with
          pubCats := db.pubCats ++ [cleanCategoryCopy userId cat now db.nextId true]
          nextId := db.nextId + 1 } n holds
      exact ⟨w, hw, n2, hn2, hid, hcid⟩
    · exact absurd hcat (hp2 n hn)
  · exact catId_not_mem_filterNe _ cat.id

/-- Sample store for the concrete category-toggle statements: one private
category and one private note referencing it. -/
def wDbCat : DB := ⟨[wCat7], [], [wNotePriv], [], 10⟩

/-- Witness for C1 at the sample store. -/
theorem toggleCategoryPublish_cascade_witness :
    (toggleCategoryPublish wDbCat "u" wCat7 true 99).migratedNoteIds.map Prod.fst =
      (wDbCat.privNotes.filter (fun n => n.categoryId = wCat7.id)).map Note.id ∧
    (∃ newId,
      assocLookup (toggleCategoryPublish wDbCat "u" wCat7 true 99).migratedNoteIds
        wNotePriv.id = some newId ∧
      ∃ n2 ∈ (toggleCategoryPublish wDbCat "u" wCat7 true 99).db.pubNotes,
        n2.id = newId ∧
        n2.categoryId = (toggleCategoryPublish wDbCat "u" wCat7 true 99).newId) ∧
    wCat7.id ∉ (toggleCategoryPublish wDbCat "u" wCat7 true 99).db.privCats.map
      Category.id :=
  have h := toggleCategoryPublish_cascade wDbCat "u" wCat7 99 rfl (by decide)
    (by decide)
  ⟨h.2.1, h.2.2.2.1 wNotePriv (Or.inl (by decide)) (by decide), h.2.2.2.2⟩

/-- Witness for C5 at the sample store: in the four-step prefix of the
trace, the deleted source note has its public copy created earlier, and
the deleted source category is preceded by the destination category
creation. -/
theorem toggleCategoryPublish_ordering_witness :
    (∃ newId,
      assocLookup (toggleCategoryPublish wDbCat "u" wCat7 true 99).migratedNoteIds 0 =
        some newId ∧
      StoreOp.createNote true newId ∈
        ((toggleCategoryPublish wDbCat "u" wCat7 true 99).trace.take 4)) ∧
    StoreOp.createCat true (toggleCategoryPublish wDbCat "u" wCat7 true 99).newId ∈
      ((toggleCategoryPublish wDbCat "u" wCat7 true 99).trace.take 4) :=
  have h := toggleCategoryPublish_ordering wDbCat "u" wCat7 true 99 4
  ⟨h.1 false 0 (by decide), (h.2 false 7 (by decide)).2⟩
